import Mathlib

set_option maxRecDepth 40000

/-!
Verification of the question-extraction / math-markup / retrieval pipeline.

The definitions below are a shallow embedding of the Python sources:
* `src/src/extractors/question_extractor.py` (`QuestionExtractor`)
* `src/src/processors/validator.py` (`Validator`)
* `src/src/processors/latex_converter.py` (`LaTeXConverter`)
* `src/src/rag/retriever.py` (`Retriever`)
* `src/src/rag/embeddings.py` (`EmbeddingGenerator`)
* `src/src/rag/vector_store.py` (`VectorStore`)

Text is modelled as `List Char`; Python float values are exact
rationals (`ℚ`), and the score accumulation of `_calculate_confidence`
applies the IEEE-754 binary64 rounding `fp64` after every addition,
as Python float arithmetic does; functions that raise are modelled
with `Except`;
external services are parameters returning `Option`.
Each regular-expression operation of the source is hand-compiled to an
executable scanner with Python `re.sub`/`re.search`/`re.findall`
semantics (leftmost match, greedy quantifiers, non-overlapping
continuation after each match).
-/

/-! ## Character classes and basic list-of-char utilities -/

/-- Python `\s` (ASCII range, as used by the sources). -/
def isSpaceCh (c : Char) : Bool :=
  c == ' ' || c == '\t' || c == '\n' || c == '\r' || c == '\x0b' || c == '\x0c'

/-- Python `str.lower` (ASCII). -/
def lcOf (s : List Char) : List Char := s.map Char.toLower

/-- Python `str.strip()`. -/
def stripWs (s : List Char) : List Char :=
  ((s.dropWhile isSpaceCh).reverse.dropWhile isSpaceCh).reverse

/-- Python `str.split(sep)` for a single-character separator: always
returns at least one (possibly empty) piece. -/
def splitOnCh (ch : Char) : List Char → List (List Char)
  | [] => [[]]
  | c :: cs =>
    if c = ch then [] :: splitOnCh ch cs
    else
      match splitOnCh ch cs with
      | [] => [[c]]
      | t :: ts => (c :: t) :: ts

/-- Python `sep.join(pieces)`. -/
def joinWith (sep : List Char) : List (List Char) → List Char
  | [] => []
  | [l] => l
  | l :: ls => l ++ sep ++ joinWith sep ls

/-! ## Tiny parsing combinators used to compile the regexes

Each matcher takes the text starting at the current position and
returns the remainder after the match (plus captured groups where
needed), or `none` when the pattern does not match at this position. -/

def expectCh (c : Char) : List Char → Option (List Char)
  | [] => none
  | x :: r => if x = c then some r else none

def expectPred (p : Char → Bool) : List Char → Option (List Char)
  | [] => none
  | x :: r => if p x then some r else none

/-- Greedy `p+`: one or more characters satisfying `p`, with the
matched run as capture. -/
def takeW1 (p : Char → Bool) (s : List Char) : Option (List Char × List Char) :=
  if s.takeWhile p = [] then none else some (s.takeWhile p, s.dropWhile p)

/-- Literal string match. -/
def expectLit (lit : List Char) (s : List Char) : Option (List Char) :=
  if lit.isPrefixOf s then some (s.drop lit.length) else none

/-- The part of `s` consumed by a match that left `rest`. -/
def matchedPart (s rest : List Char) : List Char :=
  s.take (s.length - rest.length)

/-- All suffixes of `s` (the candidate start positions of `re.search`). -/
def tailsOf : List Char → List (List Char)
  | [] => [[]]
  | c :: cs => (c :: cs) :: tailsOf cs

/-- Python `pat in s` (substring containment). -/
def infixOf (pat s : List Char) : Bool :=
  (tailsOf s).any (fun t => pat.isPrefixOf t)

/-- Python `re.search(pat, s) is not None`, given a start-anchored matcher. -/
def reSearch (m : List Char → Option (List Char)) (s : List Char) : Bool :=
  (tailsOf s).any (fun t => (m t).isSome)

/-- Engine for Python `re.sub`: scan left to right, replace each
leftmost non-overlapping match and continue after it.  The matcher
receives the character preceding the current position (for `\b`) and
returns `(matched-text, replacement, rest)`.  Every matcher used below
consumes at least one character, so fuel `s.length` is not exhausted. -/
def reSubAux (m : Option Char → List Char → Option (List Char × List Char × List Char)) :
    Nat → Option Char → List Char → List Char
  | 0, _, s => s
  | _ + 1, _, [] => []
  | fuel + 1, prev, c :: cs =>
    match m prev (c :: cs) with
    | some (matched, rep, rest) => rep ++ reSubAux m fuel (some (matched.getLast?.getD c)) rest
    | none => c :: reSubAux m fuel (some c) cs

def re_sub (m : Option Char → List Char → Option (List Char × List Char × List Char))
    (s : List Char) : List Char :=
  reSubAux m s.length none s

/-- `re.sub` for patterns without `\b`: matcher returns `(replacement, rest)`. -/
def simpleSub (m : List Char → Option (List Char × List Char)) (s : List Char) : List Char :=
  re_sub (fun _ t => (m t).map (fun pr => (matchedPart t pr.2, pr.1, pr.2))) s

/-- Python `str.replace(pat, rep)` (all non-overlapping occurrences,
left to right); `pat` is nonempty in every use below. -/
def strReplaceAux (pat rep : List Char) : Nat → List Char → List Char
  | 0, s => s
  | _ + 1, [] => []
  | fuel + 1, c :: cs =>
    if pat ≠ [] ∧ pat.isPrefixOf (c :: cs) then
      rep ++ strReplaceAux pat rep fuel ((c :: cs).drop pat.length)
    else c :: strReplaceAux pat rep fuel cs

def str_replace (s pat rep : List Char) : List Char :=
  strReplaceAux pat rep s.length s

/-- Python `str.count(pat)` (non-overlapping occurrences). -/
def strCountAux (pat : List Char) : Nat → List Char → Nat
  | 0, _ => 0
  | _ + 1, [] => 0
  | fuel + 1, c :: cs =>
    if pat ≠ [] ∧ pat.isPrefixOf (c :: cs) then
      strCountAux pat fuel ((c :: cs).drop pat.length) + 1
    else strCountAux pat fuel cs

def str_count (s pat : List Char) : Nat :=
  strCountAux pat s.length s

/-- Engine for `re.findall` with a single capture group: scan left to
right, collect each leftmost match's capture, continue after the match. -/
def findAllAux (m : List Char → Option (List Char × List Char)) :
    Nat → List Char → List (List Char)
  | 0, _ => []
  | _ + 1, [] => []
  | fuel + 1, c :: cs =>
    match m (c :: cs) with
    | some (grp, rest) => grp :: findAllAux m fuel rest
    | none => findAllAux m fuel cs

def re_findall (m : List Char → Option (List Char × List Char)) (s : List Char) :
    List (List Char) :=
  findAllAux m s.length s

deriving instance DecidableEq for Except

/-! ## Data model: `core/constants.py` and the `Question` dataclass -/

/-- `QuestionType` enum from `src/src/core/constants.py`. -/
inductive QuestionType where
  | ILLUSTRATION
  | EXERCISE
  | EXAMPLE
  | PRACTICE
  | OBJECTIVE
  | SUBJECTIVE
deriving DecidableEq, Repr

/-- The `Question` dataclass from `question_extractor.py` (the
`metadata` field defaults to `None` and is never set by the extractor,
so it is omitted). -/
structure Question where
  text : List Char
  question_type : QuestionType
  number : Option (List Char) := none
  page_number : Option Nat := none
  confidence : ℚ := 1
deriving DecidableEq, Repr

/-! ## Exact model of IEEE-754 binary64 rounding

`_calculate_confidence` accumulates Python floats (binary64), so each
`score += c` rounds the exact sum to a 53-bit significand.  `fp64`
rounds a positive rational in the normal binary64 range to the nearest
double (round to nearest, ties to even), returned as an exact
rational. -/

/-- Round to the nearest binary64 value (ties to even) in the normal
range, as an exact rational; non-positive inputs, which never occur in
the modelled sums, map to 0. -/
def fp64 (x : ℚ) : ℚ :=
  if x ≤ 0 then 0
  else
    let u : ℚ := 2 ^ (Int.log 2 x - 52)
    let n0 : ℤ := ⌊x / u⌋
    let n : ℤ :=
      if x / u - n0 < 1/2 then n0
      else if 1/2 < x / u - n0 then n0 + 1
      else if n0 % 2 = 0 then n0 else n0 + 1
    n * u

/-- The binary64 value of the Python literal `0.1`. -/
def d0_1 : ℚ := 3602879701896397 / 2 ^ 55

/-- The binary64 value of the Python literal `0.2`. -/
def d0_2 : ℚ := 3602879701896397 / 2 ^ 54

namespace QuestionExtractor

/-! ### `QuestionExtractor` (`src/src/extractors/question_extractor.py`) -/

/-- `^\d+\.` -/
def mNumDot (s : List Char) : Option (List Char) := do
  let (_, r) ← takeW1 Char.isDigit s
  expectCh '.' r

/-- `^Q\d+` -/
def mQNum (s : List Char) : Option (List Char) := do
  let r ← expectCh 'Q' s
  let (_, r2) ← takeW1 Char.isDigit r
  some r2

/-- `^Example \d+` -/
def mExampleNum (s : List Char) : Option (List Char) := do
  let r ← expectLit "Example ".data s
  let (_, r2) ← takeW1 Char.isDigit r
  some r2

/-- `^Illustration \d+` -/
def mIllustrationNum (s : List Char) : Option (List Char) := do
  let r ← expectLit "Illustration ".data s
  let (_, r2) ← takeW1 Char.isDigit r
  some r2

/-- `^\([a-z]\)` -/
def mParenLetter (s : List Char) : Option (List Char) := do
  let r ← expectCh '(' s
  let r2 ← expectPred (fun c => 'a' ≤ c && c ≤ 'z') r
  expectCh ')' r2

/-- `^[IVX]+\.` -/
def mRomanDot (s : List Char) : Option (List Char) := do
  let (_, r) ← takeW1 (fun c => c == 'I' || c == 'V' || c == 'X') s
  expectCh '.' r

/-- `QuestionExtractor._is_question_start`: strip the line, then try the
compiled `QUESTION_PATTERNS` followed by the two extra heuristics. -/
def is_question_start (line : List Char) : Bool :=
  let l := stripWs line
  (mNumDot l).isSome || (mQNum l).isSome || (mExampleNum l).isSome ||
  (mIllustrationNum l).isSome || "Exercise".data.isPrefixOf l ||
  "Problem".data.isPrefixOf l || (mParenLetter l).isSome || (mRomanDot l).isSome

/-- The accumulation loop of `QuestionExtractor._split_into_blocks`. -/
def blocksLoop : List (List Char) → List (List Char) → List (List Char)
  | curr, [] => if curr = [] then [] else [joinWith ['\n'] curr]
  | curr, line :: rest =>
    if is_question_start line then
      (if curr = [] then [] else [joinWith ['\n'] curr]) ++ blocksLoop [line] rest
    else blocksLoop (curr ++ [line]) rest

/-- `QuestionExtractor._split_into_blocks`. -/
def split_into_blocks (text : List Char) : List (List Char) :=
  blocksLoop [] (splitOnCh '\n' text)

/-- `\d+[\+\-\*/]\d+` -/
def mArith (s : List Char) : Option (List Char) := do
  let (_, r1) ← takeW1 Char.isDigit s
  let r2 ← expectPred (fun c => c == '+' || c == '-' || c == '*' || c == '/') r1
  let (_, r3) ← takeW1 Char.isDigit r2
  some r3

/-- `[xy]=` -/
def mXYeq (s : List Char) : Option (List Char) := do
  let r ← expectPred (fun c => c == 'x' || c == 'y') s
  expectCh '=' r

/-- `\\[a-zA-Z]+` -/
def mBackslashCmd (s : List Char) : Option (List Char) := do
  let r ← expectCh '\\' s
  let (_, r2) ← takeW1 Char.isAlpha r
  some r2

/-- `P\([^)]+\)` -/
def mProbNote (s : List Char) : Option (List Char) := do
  let r ← expectLit "P(".data s
  let (_, r2) ← takeW1 (fun c => !(c == ')')) r
  expectCh ')' r2

/-- `QuestionExtractor._contains_math`: the `math_indicators` patterns,
tried in source order. -/
def contains_math (text : List Char) : Bool :=
  reSearch mArith text || reSearch mXYeq text || reSearch mBackslashCmd text ||
  text.any (fun c => c == '∫' || c == '∑' || c == '∏' || c == '√') ||
  text.contains '^' || infixOf "_\x7b".data text ||
  infixOf "\\frac".data text || infixOf "\\sqrt".data text ||
  reSearch mProbNote text

/-- The `question_indicators` list of `_is_question_block`. -/
def question_indicators : List (List Char) :=
  ["?", "Find", "Calculate", "Prove", "Show that", "Determine", "Evaluate",
   "Solve", "If", "When", "What", "Which", "How", "Why", "Verify", "Derive",
   "Explain", "State", "Define", "Given"].map String.data

/-- `QuestionExtractor._is_question_block`. -/
def is_question_block (block : List Char) : Bool :=
  let block_lower := lcOf block
  question_indicators.any (fun ind => infixOf (lcOf ind) block_lower) ||
  contains_math block

/-- `re.sub(r'\s+', ' ', text)`: every maximal whitespace run becomes a
single space (the flag records whether the previous character was
inside a run already replaced). -/
def collapseWsAux : Bool → List Char → List Char
  | _, [] => []
  | prevWs, c :: cs =>
    if isSpaceCh c then
      if prevWs then collapseWsAux true cs else ' ' :: collapseWsAux true cs
    else c :: collapseWsAux false cs

/-- `Page \d+` -/
def mPageNum (s : List Char) : Option (List Char × List Char) := do
  let r ← expectLit "Page ".data s
  let (_, r2) ← takeW1 Char.isDigit r
  some ([], r2)

/-- The `.*?\d+` tail of `RD SHARMA.*?Class.*?\d+` after `Class`: first
digit reachable without crossing a newline, then the greedy digit run. -/
def digitScanRD : List Char → Option (List Char)
  | [] => none
  | c :: cs =>
    if c.isDigit then some ((c :: cs).dropWhile Char.isDigit)
    else if c = '\n' then none
    else digitScanRD cs

/-- The lazy `.*?Class.*?\d+` part (case-insensitive, `.` excludes
newlines): earliest `Class` occurrence whose digit part also matches,
with backtracking to later occurrences. -/
def findClassDigits : Nat → List Char → Option (List Char)
  | 0, _ => none
  | _ + 1, [] => none
  | fuel + 1, c :: cs =>
    if lcOf ((c :: cs).take 5) = "class".data then
      match digitScanRD ((c :: cs).drop 5) with
      | some rest => some rest
      | none => if c = '\n' then none else findClassDigits fuel cs
    else if c = '\n' then none else findClassDigits fuel cs

/-- `RD SHARMA.*?Class.*?\d+` with `re.IGNORECASE`. -/
def mRdSharma (s : List Char) : Option (List Char × List Char) :=
  if lcOf (s.take 9) = "rd sharma".data then
    match findClassDigits s.length (s.drop 9) with
    | some rest => some ([], rest)
    | none => none
  else none

/-- `QuestionExtractor._clean_text`. -/
def clean_text (text : List Char) : List Char :=
  let t := collapseWsAux false text
  let t := simpleSub mPageNum t
  let t := simpleSub mRdSharma t
  stripWs t

/-- `QuestionExtractor._determine_question_type`. -/
def determine_question_type (text : List Char) : QuestionType :=
  let text_lower := lcOf text
  if infixOf "illustration".data text_lower then .ILLUSTRATION
  else if infixOf "example".data text_lower then .EXAMPLE
  else if infixOf "exercise".data text_lower then .EXERCISE
  else if infixOf "objective".data text_lower then .OBJECTIVE
  else .PRACTICE

/-- `^(\d+)\.` (captured group). -/
def numPat1 (s : List Char) : Option (List Char) := do
  let (g, r) ← takeW1 Char.isDigit s
  let _ ← expectCh '.' r
  some g

/-- `^Q(\d+)` -/
def numPat2 (s : List Char) : Option (List Char) := do
  let r ← expectCh 'Q' s
  let (g, _) ← takeW1 Char.isDigit r
  some g

/-- `^Question (\d+)` -/
def numPat3 (s : List Char) : Option (List Char) := do
  let r ← expectLit "Question ".data s
  let (g, _) ← takeW1 Char.isDigit r
  some g

/-- `^\(([a-z])\)` -/
def numPat4 (s : List Char) : Option (List Char) :=
  match s with
  | '(' :: c :: ')' :: _ => if 'a' ≤ c ∧ c ≤ 'z' then some [c] else none
  | _ => none

/-- `^([IVX]+)\.` -/
def numPat5 (s : List Char) : Option (List Char) := do
  let (g, r) ← takeW1 (fun c => c == 'I' || c == 'V' || c == 'X') s
  let _ ← expectCh '.' r
  some g

/-- `QuestionExtractor._extract_question_number`: the five patterns in
order, first match wins (all are `^`-anchored so `re.search` only
matches at the start). -/
def extract_question_number (text : List Char) : Option (List Char) :=
  (numPat1 text).orElse fun _ =>
  (numPat2 text).orElse fun _ =>
  (numPat3 text).orElse fun _ =>
  (numPat4 text).orElse fun _ =>
  numPat5 text

/-- The `question_keywords` of `_calculate_confidence`. -/
def question_keywords : List (List Char) :=
  ["find", "prove", "show", "calculate", "determine"].map String.data

/-- Python `min(a, b)` on rationals, via the executable core
comparison `Rat.blt` (`min a b = a if a ≤ b else b`). -/
def pymin (a b : ℚ) : ℚ := if Rat.blt b a then b else a

/-- `QuestionExtractor._calculate_confidence` with Python float
(binary64) accumulation: base 0.5, `score += 0.2` for a question mark,
`score += 0.1` for math content, for an extracted number and for a
keyword — each addition rounding to the nearest double — capped by
`min(score, 1.0)` (0.5 and 1.0 are exact doubles, and the comparison
in `min` is exact). -/
def calculate_confidence (text : List Char) : ℚ :=
  let score : ℚ := 1/2
  let score := if text.contains '?' then fp64 (score + d0_2) else score
  let score := if contains_math text then fp64 (score + d0_1) else score
  let score := if (extract_question_number text).isSome then fp64 (score + d0_1) else score
  let score := if question_keywords.any (fun kw => infixOf kw (lcOf text)) then
      fp64 (score + d0_1) else score
  pymin score 1

/-- `QuestionExtractor._extract_question`. -/
def extract_question (block : List Char) : Option Question :=
  if clean_text block = [] then none
  else some
    { text := clean_text block
      question_type := determine_question_type block
      number := extract_question_number block
      page_number := none
      confidence := calculate_confidence block }

/-- `QuestionExtractor.validate_source` (the `isinstance(source, str)`
conjunct is enforced by the type). -/
def validate_source (source : List Char) : Bool := source.length > 0

/-- `QuestionExtractor.extract` (raising `ExtractionError` is modelled
by `Except.error`; `postprocess` is the identity). -/
def extract (source : List Char) : Except (List Char) (List Question) :=
  if validate_source source then
    .ok ((split_into_blocks source).filterMap
      (fun b => if is_question_block b then extract_question b else none))
  else .error "Invalid source text".data

end QuestionExtractor

/-! ## Supporting lemmas about the segmentation loop -/

namespace QuestionExtractor

theorem splitOnCh_ne_nil (ch : Char) (s : List Char) : splitOnCh ch s ≠ [] := by
  cases s with
  | nil => simp [splitOnCh]
  | cons c cs =>
    simp only [splitOnCh]
    split
    · simp
    · split <;> simp

theorem joinWith_splitOnCh (ch : Char) (s : List Char) :
    joinWith [ch] (splitOnCh ch s) = s := by
  induction s with
  | nil => simp [splitOnCh, joinWith]
  | cons c cs ih =>
    simp only [splitOnCh]
    by_cases hc : c = ch
    · subst hc
      simp only [if_pos rfl]
      rcases h : splitOnCh c cs with _ | ⟨t, ts⟩
      · exact absurd h (splitOnCh_ne_nil c cs)
      · rw [h] at ih
        simp [joinWith, ih]
    · simp only [if_neg hc]
      rcases h : splitOnCh ch cs with _ | ⟨t, ts⟩
      · exact absurd h (splitOnCh_ne_nil ch cs)
      · rw [h] at ih
        cases ts with
        | nil => simpa [joinWith] using congrArg (c :: ·) ih
        | cons t2 ts2 => simpa [joinWith] using congrArg (c :: ·) ih

theorem blocksLoop_no_start (lines : List (List Char)) :
    ∀ curr : List (List Char), (∀ l ∈ lines, is_question_start l = false) →
      blocksLoop curr lines =
        if curr ++ lines = [] then [] else [joinWith ['\n'] (curr ++ lines)] := by
  induction lines with
  | nil => intro curr _; simp [blocksLoop]
  | cons line rest ih =>
    intro curr h
    have hline : is_question_start line = false := h line (by simp)
    have hrest : ∀ l ∈ rest, is_question_start l = false := fun l hl => h l (by simp [hl])
    simp only [blocksLoop, hline, Bool.false_eq_true, if_false, ih (curr ++ [line]) hrest]
    have : curr ++ [line] ++ rest ≠ [] := by simp
    have h2 : curr ++ line :: rest ≠ [] := by simp
    rw [if_neg this, if_neg h2, List.append_assoc]
    simp

theorem split_into_blocks_no_start (s : List Char)
    (h : ∀ line ∈ splitOnCh '\n' s, is_question_start line = false) :
    split_into_blocks s = [s] := by
  unfold split_into_blocks
  rw [blocksLoop_no_start _ [] h]
  simp only [List.nil_append]
  rw [if_neg (splitOnCh_ne_nil '\n' s), joinWith_splitOnCh]

theorem rat_blt_iff_lt (a b : ℚ) : Rat.blt a b = true ↔ a < b := Iff.rfl

theorem pymin_of_le (x y : ℚ) (h : x ≤ y) : pymin x y = x := by
  unfold pymin
  cases hb : Rat.blt y x with
  | false => rfl
  | true => exact absurd ((rat_blt_iff_lt y x).mp hb) (not_lt.mpr h)

theorem pymin_one_bounds (x : ℚ) (hx : 0 ≤ x) :
    0 ≤ pymin x 1 ∧ pymin x 1 ≤ 1 := by
  unfold pymin
  cases hb : Rat.blt 1 x with
  | true => norm_num
  | false =>
    have hnlt : ¬ (1 : ℚ) < x := fun hlt => by
      rw [(rat_blt_iff_lt 1 x).mpr hlt] at hb
      exact absurd hb (by simp)
    simpa using ⟨hx, not_lt.mp hnlt⟩

end QuestionExtractor

/-! ## Supporting lemmas about binary64 rounding -/

theorem int_log_eq_of_bounds (x : ℚ) (e : ℤ) (hx : 0 < x)
    (h1 : (2:ℚ) ^ e ≤ x) (h2 : x < (2:ℚ) ^ (e + 1)) : Int.log 2 x = e := by
  have hcast : ((2:ℕ):ℚ) = (2:ℚ) := by norm_num
  have ha : e ≤ Int.log 2 x := by
    rw [← Int.zpow_le_iff_le_log (by norm_num) hx, hcast]
    exact h1
  have hb : Int.log 2 x < e + 1 := by
    rw [← Int.lt_zpow_iff_log_lt (by norm_num) hx, hcast]
    exact h2
  omega

theorem fp64_eq_of_floor (x : ℚ) (e n0 : ℤ) (hx : 0 < x)
    (hlog : Int.log 2 x = e)
    (hfl : ⌊x / 2 ^ (e - 52)⌋ = n0)
    (hfrac : x / 2 ^ (e - 52) - (n0 : ℚ) < 1/2) :
    fp64 x = n0 * 2 ^ (e - 52) := by
  simp only [fp64]
  rw [if_neg (not_le.mpr hx), hlog, hfl, if_pos hfrac]

theorem fp64_nonneg (x : ℚ) : 0 ≤ fp64 x := by
  simp only [fp64]
  by_cases h : x ≤ 0
  · simp [h]
  · rw [if_neg h]
    push_neg at h
    have hu : (0:ℚ) < 2 ^ (Int.log 2 x - 52) := by positivity
    have h0 : (0:ℤ) ≤ ⌊x / 2 ^ (Int.log 2 x - 52)⌋ :=
      Int.floor_nonneg.mpr (by positivity)
    have h1 : (0:ℤ) ≤ ⌊x / 2 ^ (Int.log 2 x - 52)⌋ + 1 := by omega
    split_ifs
    · exact mul_nonneg (by exact_mod_cast h0) hu.le
    · exact mul_nonneg (by exact_mod_cast h1) hu.le
    · exact mul_nonneg (by exact_mod_cast h0) hu.le
    · exact mul_nonneg (by exact_mod_cast h1) hu.le

/-- `0.5 + 0.1` in binary64 (the double printed `0.6`). -/
theorem fp64_step1 :
    fp64 (1/2 + d0_1) = 5404319552844595 / 2 ^ 53 := by
  have hx : (1/2 + d0_1 : ℚ) = 21617278211378381 / 2 ^ 55 := by norm_num [d0_1]
  rw [hx]
  have hpow : ((2:ℚ) ^ ((-1:ℤ) - 52)) = 1 / 2 ^ 53 := by norm_num
  have hlog : Int.log 2 ((21617278211378381:ℚ) / 2 ^ 55) = -1 :=
    int_log_eq_of_bounds _ _ (by norm_num) (by norm_num) (by norm_num)
  have hfl : ⌊(21617278211378381:ℚ) / 2 ^ 55 / 2 ^ ((-1:ℤ) - 52)⌋ = 5404319552844595 := by
    rw [hpow, Int.floor_eq_iff]
    norm_num
  have hfrac : (21617278211378381:ℚ) / 2 ^ 55 / 2 ^ ((-1:ℤ) - 52)
      - ((5404319552844595:ℤ) : ℚ) < 1/2 := by
    rw [hpow]
    norm_num
  rw [fp64_eq_of_floor _ (-1) 5404319552844595 (by norm_num) hlog hfl hfrac, hpow]
  norm_num

/-- `0.6 + 0.1` in binary64 (the double printed `0.7`). -/
theorem fp64_step2 :
    fp64 (5404319552844595 / 2 ^ 53 + d0_1) = 6305039478318694 / 2 ^ 53 := by
  have hx : (5404319552844595 / 2 ^ 53 + d0_1 : ℚ) = 25220157913274777 / 2 ^ 55 := by
    norm_num [d0_1]
  rw [hx]
  have hpow : ((2:ℚ) ^ ((-1:ℤ) - 52)) = 1 / 2 ^ 53 := by norm_num
  have hlog : Int.log 2 ((25220157913274777:ℚ) / 2 ^ 55) = -1 :=
    int_log_eq_of_bounds _ _ (by norm_num) (by norm_num) (by norm_num)
  have hfl : ⌊(25220157913274777:ℚ) / 2 ^ 55 / 2 ^ ((-1:ℤ) - 52)⌋ = 6305039478318694 := by
    rw [hpow, Int.floor_eq_iff]
    norm_num
  have hfrac : (25220157913274777:ℚ) / 2 ^ 55 / 2 ^ ((-1:ℤ) - 52)
      - ((6305039478318694:ℤ) : ℚ) < 1/2 := by
    rw [hpow]
    norm_num
  rw [fp64_eq_of_floor _ (-1) 6305039478318694 (by norm_num) hlog hfl hfrac, hpow]
  norm_num

/-- `0.7 + 0.1` in binary64: the double printed `0.7999999999999999`,
one unit in the last place below `0.8`. -/
theorem fp64_step3 :
    fp64 (6305039478318694 / 2 ^ 53 + d0_1) = 7205759403792793 / 2 ^ 53 := by
  have hx : (6305039478318694 / 2 ^ 53 + d0_1 : ℚ) = 28823037615171173 / 2 ^ 55 := by
    norm_num [d0_1]
  rw [hx]
  have hpow : ((2:ℚ) ^ ((-1:ℤ) - 52)) = 1 / 2 ^ 53 := by norm_num
  have hlog : Int.log 2 ((28823037615171173:ℚ) / 2 ^ 55) = -1 :=
    int_log_eq_of_bounds _ _ (by norm_num) (by norm_num) (by norm_num)
  have hfl : ⌊(28823037615171173:ℚ) / 2 ^ 55 / 2 ^ ((-1:ℤ) - 52)⌋ = 7205759403792793 := by
    rw [hpow, Int.floor_eq_iff]
    norm_num
  have hfrac : (28823037615171173:ℚ) / 2 ^ 55 / 2 ^ ((-1:ℤ) - 52)
      - ((7205759403792793:ℤ) : ℚ) < 1/2 := by
    rw [hpow]
    norm_num
  rw [fp64_eq_of_floor _ (-1) 7205759403792793 (by norm_num) hlog hfl hfrac, hpow]
  norm_num

namespace QuestionExtractor

set_option maxHeartbeats 1600000 in
theorem calculate_confidence_bounds (t : List Char) :
    0 ≤ calculate_confidence t ∧ calculate_confidence t ≤ 1 := by
  unfold calculate_confidence
  apply pymin_one_bounds
  dsimp only
  split_ifs <;> first
    | exact fp64_nonneg _
    | norm_num

/-- The confidence of the C1 scenario block: no question mark, then
three `+ 0.1` float additions starting from 0.5. -/
theorem calculate_confidence_scenario :
    calculate_confidence "1. Find the value of x^2 + 1/2.".data =
      7205759403792793 / 2 ^ 53 := by
  have h1 : ("1. Find the value of x^2 + 1/2.".data).contains '?' = false := by decide
  have h2 : contains_math "1. Find the value of x^2 + 1/2.".data = true := by decide
  have h3 : (extract_question_number
      "1. Find the value of x^2 + 1/2.".data).isSome = true := by decide
  have h4 : (question_keywords.any fun kw =>
      infixOf kw (lcOf "1. Find the value of x^2 + 1/2.".data)) = true := by decide
  simp only [calculate_confidence, h1, h2, h3, h4, Bool.false_eq_true, if_false, if_true]
  rw [fp64_step1, fp64_step2, fp64_step3, pymin_of_le _ _ (by norm_num)]

end QuestionExtractor

/-! ## Claims about segmentation-and-classification -/

/-- C1 counterexample: the extractor does return exactly one Question
for the scenario input, but its confidence is the binary64
accumulation `0.5 + 0.1 + 0.1 + 0.1 = 7205759403792793/2^53`
(printed `0.7999999999999999`), which is strictly below the claimed
0.8. -/
theorem c1_counterexample :
    QuestionExtractor.extract "1. Find the value of x^2 + 1/2.".data =
      .ok [{ text := "1. Find the value of x^2 + 1/2.".data
             question_type := QuestionType.PRACTICE
             number := some "1".data
             page_number := none
             confidence := QuestionExtractor.calculate_confidence
               "1. Find the value of x^2 + 1/2.".data }] ∧
    QuestionExtractor.calculate_confidence "1. Find the value of x^2 + 1/2.".data
      < 8/10 := by
  refine ⟨rfl, ?_⟩
  rw [QuestionExtractor.calculate_confidence_scenario]
  norm_num

/-- C1 (amended): for the input string `"1. Find the value of
x^2 + 1/2."`, `QuestionExtractor.extract` returns exactly one
`Question` whose number is `"1"`, whose type is the default
`practice`, and whose confidence is the float accumulation
`0.5 + 0.1 + 0.1 + 0.1 = 7205759403792793/2^53 ≈ 0.7999999999999999`
— one unit in the last place below the claimed 0.8. -/
theorem c1_numbered_find_scenario :
    ∃ q : Question,
      QuestionExtractor.extract "1. Find the value of x^2 + 1/2.".data = .ok [q] ∧
      q.number = some "1".data ∧ q.question_type = QuestionType.PRACTICE ∧
      q.confidence = 7205759403792793 / 2 ^ 53 ∧ q.confidence < 8/10 := by
  refine ⟨{ text := "1. Find the value of x^2 + 1/2.".data
            question_type := QuestionType.PRACTICE
            number := some "1".data
            page_number := none
            confidence :=
              QuestionExtractor.calculate_confidence
                "1. Find the value of x^2 + 1/2.".data }, rfl, rfl, rfl, ?_, ?_⟩
  · exact QuestionExtractor.calculate_confidence_scenario
  · rw [QuestionExtractor.calculate_confidence_scenario]
    norm_num

/-- C8: `QuestionExtractor.extract` fails with the invalid-input error
exactly when the input is the empty string (non-`str` input being
excluded by the type), and never fails on non-empty input. -/
theorem c8_extract_error_iff_empty (source : List Char) :
    (∃ e, QuestionExtractor.extract source = .error e) ↔ source = [] := by
  unfold QuestionExtractor.extract QuestionExtractor.validate_source
  rcases source with _ | ⟨c, cs⟩ <;> simp

/-- C7: every `Question` produced by `QuestionExtractor.extract` has
confidence in `[0,1]`, and a block containing none of the four type
keywords is classified with the default type `practice` (the type field
is total by construction, hence never null). -/
theorem c7_confidence_bounds_and_default_type :
    (∀ (source : List Char) (qs : List Question),
        QuestionExtractor.extract source = .ok qs →
        ∀ q ∈ qs, 0 ≤ q.confidence ∧ q.confidence ≤ 1) ∧
    (∀ block : List Char,
        infixOf "illustration".data (lcOf block) = false →
        infixOf "example".data (lcOf block) = false →
        infixOf "exercise".data (lcOf block) = false →
        infixOf "objective".data (lcOf block) = false →
        QuestionExtractor.determine_question_type block = QuestionType.PRACTICE) := by
  constructor
  · intro source qs h q hq
    unfold QuestionExtractor.extract at h
    split at h
    · rw [Except.ok.injEq] at h
      subst h
      rw [List.mem_filterMap] at hq
      obtain ⟨b, _, hb⟩ := hq
      split at hb
      · unfold QuestionExtractor.extract_question at hb
        split at hb
        · exact absurd hb (by simp)
        · rw [Option.some.injEq] at hb
          subst hb
          exact QuestionExtractor.calculate_confidence_bounds b
      · exact absurd hb (by simp)
    · exact absurd h (by simp)
  · intro block h1 h2 h3 h4
    unfold QuestionExtractor.determine_question_type
    simp only [h1, h2, h3, h4, Bool.false_eq_true, if_false]

/-- Witness for C7 at a concrete extraction. -/
theorem c7_witness :
    0 ≤ (Question.mk "Find the value?".data QuestionType.PRACTICE none none
          (QuestionExtractor.calculate_confidence "Find the value?".data)).confidence ∧
    (Question.mk "Find the value?".data QuestionType.PRACTICE none none
          (QuestionExtractor.calculate_confidence "Find the value?".data)).confidence ≤ 1 :=
  c7_confidence_bounds_and_default_type.1 "Find the value?".data
    [Question.mk "Find the value?".data QuestionType.PRACTICE none none
      (QuestionExtractor.calculate_confidence "Find the value?".data)]
    (by rfl)
    (Question.mk "Find the value?".data QuestionType.PRACTICE none none
      (QuestionExtractor.calculate_confidence "Find the value?".data))
    (by simp)

/-- C9: on non-empty input none of whose lines matches a block-start
pattern, the whole text is one block, so `extract` yields at most one
`Question`: exactly one when the text passes the question-indicator
check and survives cleaning, and none otherwise. -/
theorem c9_no_block_start (s : List Char) (hne : s ≠ [])
    (h : ∀ line ∈ splitOnCh '\n' s, QuestionExtractor.is_question_start line = false) :
    ∃ qs, QuestionExtractor.extract s = .ok qs ∧ qs.length ≤ 1 ∧
      (qs.length = 1 ↔
        (QuestionExtractor.is_question_block s = true ∧
         QuestionExtractor.clean_text s ≠ [])) := by
  have hval : QuestionExtractor.validate_source s = true := by
    unfold QuestionExtractor.validate_source
    cases s with
    | nil => exact absurd rfl hne
    | cons c cs => simp
  have hex : QuestionExtractor.extract s =
      .ok ([s].filterMap (fun b =>
        if QuestionExtractor.is_question_block b then
          QuestionExtractor.extract_question b
        else none)) := by
    unfold QuestionExtractor.extract
    rw [if_pos hval, QuestionExtractor.split_into_blocks_no_start s h]
  refine ⟨_, hex, ?_, ?_⟩ <;>
    by_cases hqb : QuestionExtractor.is_question_block s = true <;>
    by_cases hcl : QuestionExtractor.clean_text s = [] <;>
    simp [QuestionExtractor.extract_question, hqb, hcl]

/-- Witness for C9 at a concrete input with no block-start line. -/
theorem c9_witness :
    ∃ qs, QuestionExtractor.extract "Find the value?".data = .ok qs ∧ qs.length ≤ 1 ∧
      (qs.length = 1 ↔
        (QuestionExtractor.is_question_block "Find the value?".data = true ∧
         QuestionExtractor.clean_text "Find the value?".data ≠ [])) :=
  c9_no_block_start "Find the value?".data (by simp) (by decide)

namespace Validator

/-! ### `Validator` (`src/src/processors/validator.py`) -/

/-- The counting loop of `Validator._check_balanced_braces`: increment
on `{`, decrement on `}`, fail as soon as the counter goes negative,
and require zero at the end. -/
def bracesLoop : Int → List Char → Bool
  | count, [] => count == 0
  | count, c :: cs =>
    let count := if c = '{' then count + 1 else if c = '}' then count - 1 else count
    if count < 0 then false else bracesLoop count cs

/-- `Validator._check_balanced_braces`. -/
def check_balanced_braces (latex : List Char) : Bool := bracesLoop 0 latex

/-- `\begin\{([^}]+)\}` (the capture is the environment name). -/
def mBeginEnv (s : List Char) : Option (List Char × List Char) := do
  let r ← expectLit "\\begin\x7b".data s
  let (g, r2) ← takeW1 (fun c => !(c == '}')) r
  let r3 ← expectCh '}' r2
  some (g, r3)

/-- `Validator._check_balanced_delimiters`: even number of unescaped
`$`, matching counts of `\[`/`\]` and `\(`/`\)`, and matching
begin/end counts for every environment name found. -/
def check_balanced_delimiters (latex : List Char) : Bool :=
  (((str_count latex "$".data : Int) - (str_count latex "\\$".data : Int)) % 2 == 0) &&
  (str_count latex "\\[".data == str_count latex "\\]".data) &&
  (str_count latex "\\(".data == str_count latex "\\)".data) &&
  ((re_findall mBeginEnv latex).all fun env =>
    str_count latex ("\\begin\x7b".data ++ env ++ ['}']) ==
    str_count latex ("\\end\x7b".data ++ env ++ ['}']))

/-- `re.search(r'_.*_')` / `re.search(r'\^.*\^')`: two occurrences of
`ch` with no newline between them (`.` does not match newlines). -/
def twoSameLine (ch : Char) : Bool → List Char → Bool
  | _, [] => false
  | seen, c :: cs =>
    if c = ch then (if seen then true else twoSameLine ch true cs)
    else if c = '\n' then twoSameLine ch false cs
    else twoSameLine ch seen cs

/-- `\\(frac|sqrt|sum|int)\s+[^{]`, with the greedy `\s+` backtracking:
when the character after the whitespace run is `{` or the string ends,
`\s+` gives one whitespace character back to `[^{]`, so the pattern
still matches whenever the run has two or more characters. -/
def mMissingBraces (s : List Char) : Option (List Char) := do
  let r ← expectCh '\\' s
  let r2 ← (expectLit "frac".data r).orElse fun _ =>
    (expectLit "sqrt".data r).orElse fun _ =>
    (expectLit "sum".data r).orElse fun _ => expectLit "int".data r
  let (w, r3) ← takeW1 isSpaceCh r2
  match r3 with
  | c :: rest =>
    if c = '{' then (if 2 ≤ w.length then some (c :: rest) else none)
    else some rest
  | [] => if 2 ≤ w.length then some [] else none

/-- `\\frac[^{]` -/
def mFracNoBrace (s : List Char) : Option (List Char) := do
  let r ← expectLit "\\frac".data s
  expectPred (fun c => !(c == '{')) r

/-- `Validator._check_common_latex_errors`. -/
def check_common_latex_errors (latex : List Char) : List (List Char) :=
  (if twoSameLine '_' false latex || twoSameLine '^' false latex then
    ["Double subscripts or superscripts detected".data] else []) ++
  (if reSearch mMissingBraces latex then ["Missing braces after command".data] else []) ++
  (if reSearch mFracNoBrace latex then ["Invalid fraction syntax".data] else [])

/-- The `valid_commands` allow-list of `Validator._check_invalid_commands`. -/
def valid_commands : List (List Char) :=
  ["frac", "sqrt", "sum", "int", "prod", "lim",
   "sin", "cos", "tan", "log", "ln", "exp",
   "alpha", "beta", "gamma", "delta", "theta",
   "lambda", "mu", "sigma", "phi", "omega",
   "infty", "partial", "nabla", "times", "cdot",
   "leq", "geq", "neq", "approx", "equiv",
   "subseteq", "supseteq", "in", "notin",
   "cup", "cap", "emptyset", "forall", "exists",
   "rightarrow", "leftarrow", "Rightarrow", "Leftarrow",
   "text", "textbf", "textit", "mathbf", "mathit",
   "begin", "end", "left", "right", "big", "Big",
   "binom", "choose", "pmatrix", "bmatrix", "vmatrix"].map String.data

/-- `\\([a-zA-Z]+)` (the capture is the command name). -/
def mCmdName (s : List Char) : Option (List Char × List Char) := do
  let r ← expectCh '\\' s
  let (g, r2) ← takeW1 Char.isAlpha r
  some (g, r2)

/-- `Validator._check_invalid_commands`. -/
def check_invalid_commands (latex : List Char) : List (List Char) :=
  (re_findall mCmdName latex).filter (fun cmd => !(valid_commands.contains cmd))

/-- `Validator.validate_latex`: accumulate the errors of the four
independent checks, in source order. -/
def validate_latex (latex : List Char) : List (List Char) :=
  (if check_balanced_braces latex then [] else ["Unbalanced braces in LaTeX".data]) ++
  (if check_balanced_delimiters latex then [] else ["Unbalanced math delimiters".data]) ++
  check_common_latex_errors latex ++
  (if check_invalid_commands latex = [] then []
   else ["Invalid LaTeX commands: ".data ++ joinWith ", ".data (check_invalid_commands latex)])

end Validator

/-! ## The brace-counter condition, stated from the claim's words -/

/-- The step of the running `{`/`}` counter. -/
def braceDelta (c : Char) : Int :=
  if c = '{' then 1 else if c = '}' then -1 else 0

/-- The value of the running counter after a list of characters. -/
def braceRun : List Char → Int
  | [] => 0
  | c :: cs => braceDelta c + braceRun cs

namespace Validator

theorem bracesLoop_false_iff (l : List Char) : ∀ n : Int,
    bracesLoop n l = false ↔
      ((∃ t, t ≠ [] ∧ t <+: l ∧ n + braceRun t < 0) ∨ n + braceRun l ≠ 0) := by
  induction l with
  | nil =>
    intro n
    simp only [bracesLoop, braceRun, add_zero, beq_eq_false_iff_ne, ne_eq]
    constructor
    · intro h; exact Or.inr h
    · rintro (⟨t, ht0, htp, _⟩ | h)
      · exact absurd (List.prefix_nil.mp htp) ht0
      · exact h
  | cons c cs ih =>
    intro n
    have hδ : (if c = '{' then n + 1 else if c = '}' then n - 1 else n) = n + braceDelta c := by
      unfold braceDelta
      split_ifs <;> ring
    simp only [bracesLoop, hδ]
    by_cases hneg : n + braceDelta c < 0
    · rw [if_pos hneg]
      constructor
      · intro _
        left
        refine ⟨[c], by simp, ⟨cs, rfl⟩, ?_⟩
        simpa [braceRun] using hneg
      · intro _; rfl
    · rw [if_neg hneg, ih (n + braceDelta c)]
      constructor
      · rintro (⟨t, ht0, htp, htneg⟩ | hne)
        · left
          refine ⟨c :: t, by simp, List.cons_prefix_cons.mpr ⟨rfl, htp⟩, ?_⟩
          simp only [braceRun]
          omega
        · right
          simp only [braceRun]
          omega
      · rintro (⟨t, ht0, htp, htneg⟩ | hne)
        · cases t with
          | nil => exact absurd rfl ht0
          | cons a t' =>
            obtain ⟨hac, ht'p⟩ := List.cons_prefix_cons.mp htp
            subst hac
            simp only [braceRun] at htneg
            cases t' with
            | nil =>
              simp only [braceRun, add_zero] at htneg
              omega
            | cons b t'' =>
              left
              refine ⟨b :: t'', by simp, ht'p, ?_⟩
              omega
        · right
          simp only [braceRun] at hne
          omega

theorem check_balanced_braces_false_iff (s : List Char) :
    check_balanced_braces s = false ↔
      ((∃ t, t <+: s ∧ braceRun t < 0) ∨ braceRun s ≠ 0) := by
  unfold check_balanced_braces
  rw [bracesLoop_false_iff s 0]
  constructor
  · rintro (⟨t, _, htp, htneg⟩ | hne)
    · exact Or.inl ⟨t, htp, by omega⟩
    · exact Or.inr (by omega)
  · rintro (⟨t, htp, htneg⟩ | hne)
    · refine Or.inl ⟨t, ?_, htp, by omega⟩
      rintro rfl
      simp [braceRun] at htneg
    · exact Or.inr (by omega)

theorem brace_message_not_mem_common (s : List Char) :
    "Unbalanced braces in LaTeX".data ∉ check_common_latex_errors s := by
  unfold check_common_latex_errors
  split_ifs <;> decide

theorem brace_message_ne_invalid_commands (r : List Char) :
    "Unbalanced braces in LaTeX".data ≠ "Invalid LaTeX commands: ".data ++ r := by
  intro h
  have h2 : ('U' : Char) :: "nbalanced braces in LaTeX".data =
      'I' :: ("nvalid LaTeX commands: ".data ++ r) := h
  exact absurd (List.cons.inj h2).1 (by decide)

end Validator

/-! ## Claims about markup validation -/

/-- C3: for every string `s`, the error list of `validate_latex`
contains the brace-imbalance message iff the running `{`/`}` counter
over `s` goes negative at some point or is nonzero at the end. -/
theorem c3_brace_message_iff_counter (s : List Char) :
    "Unbalanced braces in LaTeX".data ∈ Validator.validate_latex s ↔
      ((∃ t, t <+: s ∧ braceRun t < 0) ∨ braceRun s ≠ 0) := by
  rw [← Validator.check_balanced_braces_false_iff]
  unfold Validator.validate_latex
  cases hb : Validator.check_balanced_braces s with
  | false =>
    rw [if_neg (by simp)]
    simp
  | true =>
    rw [if_pos rfl, List.nil_append]
    constructor
    · intro h
      exfalso
      rcases List.mem_append.mp h with h | h
      · rcases List.mem_append.mp h with h | h
        · by_cases hd : Validator.check_balanced_delimiters s = true
          · rw [if_pos hd] at h
            exact absurd h (List.not_mem_nil _)
          · rw [if_neg hd] at h
            exact absurd (List.mem_singleton.mp h) (by decide)
        · exact absurd h (Validator.brace_message_not_mem_common s)
      · by_cases hc : Validator.check_invalid_commands s = []
        · rw [if_pos hc] at h
          exact absurd h (List.not_mem_nil _)
        · rw [if_neg hc] at h
          exact absurd (List.mem_singleton.mp h)
            (Validator.brace_message_ne_invalid_commands _)
    · intro h
      exact absurd h (by simp)

/-- C6 counterexample: validating the string `"\frac12"` does not put
the missing-braces-after-command message in the error list, contrary
to the claim. -/
theorem c6_counterexample :
    "Missing braces after command".data ∉ Validator.validate_latex "\\frac12".data := by
  decide

/-- C6 (amended): validating `"\frac12"` yields a non-empty error list
(hence invalid), and that list is exactly the invalid-fraction-syntax
message — the flag for a fraction command not followed by a brace. -/
theorem c6_invalid_fraction_flag :
    Validator.validate_latex "\\frac12".data = ["Invalid fraction syntax".data] ∧
    Validator.validate_latex "\\frac12".data ≠ [] := by
  constructor
  · decide
  · decide

namespace Retriever

/-! ### `Retriever` (`src/src/rag/retriever.py`) -/

/-- A search result dictionary as produced by `VectorStore.search` and
mutated by `Retriever._rerank_results`. -/
structure SearchResult where
  document : List Char
  distance : ℚ
  keyword_score : ℚ := 0
  combined_score : ℚ := 0
deriving DecidableEq, Repr

/-- Python `str.split()` with no argument: whitespace runs separate
words, no empty pieces. -/
def splitWsAux : Nat → List Char → List (List Char)
  | 0, _ => []
  | fuel + 1, s =>
    match takeW1 (fun c => !(isSpaceCh c)) (s.dropWhile isSpaceCh) with
    | none => []
    | some (w, rest) => w :: splitWsAux fuel rest

def split_ws (s : List Char) : List (List Char) := splitWsAux s.length s

/-- The lexical-overlap score of `_rerank_results`:
`len(set(query.lower().split()) & set(doc.lower().split())) / len(query_words)`
and 0 when the query has no words. -/
def lexical_overlap (query doc : List Char) : ℚ :=
  let query_words := (split_ws (lcOf query)).dedup
  let doc_words := (split_ws (lcOf doc)).dedup
  if query_words = [] then 0
  else ((query_words.filter fun w => doc_words.contains w).length : ℚ) /
    (query_words.length : ℚ)

/-- `Retriever._rerank_results`: first loop writes `keyword_score`,
second loop writes `combined_score = 0.7 * (1/(1+distance)) +
0.3 * keyword_score`, then a stable descending sort by
`combined_score` (Python `list.sort(key=..., reverse=True)`). -/
def rerank_results (query : List Char) (results : List SearchResult) : List SearchResult :=
  let withKeyword := results.map fun r =>
    { r with keyword_score := lexical_overlap query r.document }
  let withCombined := withKeyword.map fun r =>
    { r with combined_score := (7/10) * (1 / (1 + r.distance)) + (3/10) * r.keyword_score }
  List.insertionSort (fun a b => b.combined_score ≤ a.combined_score) withCombined

end Retriever

/-! ## Claim about hybrid re-ranking -/

/-- C4: after `_rerank_results`, every result's combined score is
`0.7 * (1/(1+distance)) + 0.3 * lexical_overlap` (with the overlap
term 0 when the query has no words, per `lexical_overlap`), the output
is sorted descending by combined score, and consequently of two
results with identical distance the one with strictly higher lexical
overlap is ranked first (equivalently: a later-ranked result with the
same distance never has a larger overlap score). -/
theorem c4_hybrid_ranking (query : List Char) (results : List Retriever.SearchResult) :
    List.Sorted (fun a b => b.combined_score ≤ a.combined_score)
      (Retriever.rerank_results query results) ∧
    (∀ r ∈ Retriever.rerank_results query results,
      r.combined_score = (7/10) * (1 / (1 + r.distance)) +
        (3/10) * Retriever.lexical_overlap query r.document ∧
      r.keyword_score = Retriever.lexical_overlap query r.document) ∧
    (∀ (i j : Nat) (hi : i < (Retriever.rerank_results query results).length)
        (hj : j < (Retriever.rerank_results query results).length), i < j →
      ((Retriever.rerank_results query results).get ⟨i, hi⟩).distance =
        ((Retriever.rerank_results query results).get ⟨j, hj⟩).distance →
      ((Retriever.rerank_results query results).get ⟨j, hj⟩).keyword_score ≤
        ((Retriever.rerank_results query results).get ⟨i, hi⟩).keyword_score) := by
  haveI : IsTotal Retriever.SearchResult
      (fun a b => b.combined_score ≤ a.combined_score) := ⟨fun a b => le_total _ _⟩
  haveI : IsTrans Retriever.SearchResult
      (fun a b => b.combined_score ≤ a.combined_score) := ⟨fun _ _ _ h1 h2 => le_trans h2 h1⟩
  have hsorted : List.Sorted (fun a b => b.combined_score ≤ a.combined_score)
      (Retriever.rerank_results query results) := List.sorted_insertionSort _ _
  have hmem : ∀ r ∈ Retriever.rerank_results query results,
      r.combined_score = (7/10) * (1 / (1 + r.distance)) +
        (3/10) * Retriever.lexical_overlap query r.document ∧
      r.keyword_score = Retriever.lexical_overlap query r.document := by
    intro r hr
    unfold Retriever.rerank_results at hr
    rw [(List.perm_insertionSort _ _).mem_iff] at hr
    rw [List.mem_map] at hr
    obtain ⟨x, hx, rfl⟩ := hr
    rw [List.mem_map] at hx
    obtain ⟨y, _, rfl⟩ := hx
    exact ⟨rfl, rfl⟩
  refine ⟨hsorted, hmem, ?_⟩
  intro i j hi hj hij hdist
  have hpw := List.pairwise_iff_getElem.mp hsorted i j hi hj hij
  simp only [List.get_eq_getElem] at hdist ⊢
  obtain ⟨hci, hki⟩ := hmem _ (List.getElem_mem hi)
  obtain ⟨hcj, hkj⟩ := hmem _ (List.getElem_mem hj)
  rw [hki, hkj]
  rw [hci, hcj, hdist] at hpw
  linarith

/-- Witness for C4: query `"alpha"`, two results with equal distance 1
and different overlap; the second-ranked result's overlap score does
not exceed the first-ranked one's. -/
theorem c4_witness :
    ∃ (h0 : 0 < (Retriever.rerank_results "alpha".data
        [⟨"beta".data, 1, 0, 0⟩, ⟨"alpha".data, 1, 0, 0⟩]).length)
      (h1 : 1 < (Retriever.rerank_results "alpha".data
        [⟨"beta".data, 1, 0, 0⟩, ⟨"alpha".data, 1, 0, 0⟩]).length),
      ((Retriever.rerank_results "alpha".data
          [⟨"beta".data, 1, 0, 0⟩, ⟨"alpha".data, 1, 0, 0⟩]).get ⟨1, h1⟩).keyword_score ≤
      ((Retriever.rerank_results "alpha".data
          [⟨"beta".data, 1, 0, 0⟩, ⟨"alpha".data, 1, 0, 0⟩]).get ⟨0, h0⟩).keyword_score := by
  have hlen : (Retriever.rerank_results "alpha".data
      [⟨"beta".data, 1, 0, 0⟩, ⟨"alpha".data, 1, 0, 0⟩]).length = 2 := by
    unfold Retriever.rerank_results
    rw [(List.perm_insertionSort _ _).length_eq]
    simp
  have hdist : ∀ r ∈ Retriever.rerank_results "alpha".data
      [⟨"beta".data, 1, 0, 0⟩, ⟨"alpha".data, 1, 0, 0⟩], r.distance = 1 := by
    intro r hr
    unfold Retriever.rerank_results at hr
    rw [(List.perm_insertionSort _ _).mem_iff] at hr
    rw [List.mem_map] at hr
    obtain ⟨x, hx, rfl⟩ := hr
    rw [List.mem_map] at hx
    obtain ⟨y, hy, rfl⟩ := hx
    simp only [List.mem_cons, List.not_mem_nil, or_false] at hy
    rcases hy with rfl | rfl <;> rfl
  have h0 : 0 < (Retriever.rerank_results "alpha".data
      [⟨"beta".data, 1, 0, 0⟩, ⟨"alpha".data, 1, 0, 0⟩]).length := by rw [hlen]; norm_num
  have h1 : 1 < (Retriever.rerank_results "alpha".data
      [⟨"beta".data, 1, 0, 0⟩, ⟨"alpha".data, 1, 0, 0⟩]).length := by rw [hlen]; norm_num
  refine ⟨h0, h1, ?_⟩
  exact (c4_hybrid_ranking "alpha".data
      [⟨"beta".data, 1, 0, 0⟩, ⟨"alpha".data, 1, 0, 0⟩]).2.2 0 1 h0 h1 (by norm_num)
    (by rw [hdist _ (List.get_mem _ _ h0), hdist _ (List.get_mem _ _ h1)])

namespace EmbeddingGenerator

/-! ### `EmbeddingGenerator` (`src/src/rag/embeddings.py`) -/

/-- The zero-vector fallback `np.zeros(768)`. -/
def zeros (n : Nat) : List ℚ := List.replicate n 0

/-- `EmbeddingGenerator.generate_embedding`: the external
`genai.embed_content` call, observed after its bounded tenacity
retries, is a parameter returning `none` when it still fails; the
wrapper then raises `LLMError`, modelled as `Except.error`. -/
def generate_embedding (embed_content : List Char → Option (List ℚ))
    (text : List Char) : Except (List Char) (List ℚ) :=
  match embed_content text with
  | some v => .ok v
  | none => .error "Failed to generate embedding".data

/-- `EmbeddingGenerator.generate_batch_embeddings`: a per-item
try/except around `generate_embedding`, appending the zero vector when
the item fails. -/
def generate_batch_embeddings (embed_content : List Char → Option (List ℚ))
    (texts : List (List Char)) : List (List ℚ) :=
  texts.map fun text =>
    match generate_embedding embed_content text with
    | .ok e => e
    | .error _ => zeros 768

end EmbeddingGenerator

/-! ## Claim about batch-embedding failure isolation -/

/-- C5: `generate_batch_embeddings` always returns exactly one vector
per input text (it is total, so no exception propagates), an item
whose embedding call fails after its retries yields the zero vector at
that position, and a successful item keeps its embedding. -/
theorem c5_batch_failure_isolation (embed_content : List Char → Option (List ℚ))
    (texts : List (List Char)) :
    (EmbeddingGenerator.generate_batch_embeddings embed_content texts).length =
      texts.length ∧
    ∀ (i : Nat) (hi : i < texts.length)
      (hb : i < (EmbeddingGenerator.generate_batch_embeddings embed_content texts).length),
      ((∃ e, EmbeddingGenerator.generate_embedding embed_content (texts.get ⟨i, hi⟩) =
          .error e) →
        (EmbeddingGenerator.generate_batch_embeddings embed_content texts).get ⟨i, hb⟩ =
          EmbeddingGenerator.zeros 768) ∧
      (∀ v, EmbeddingGenerator.generate_embedding embed_content (texts.get ⟨i, hi⟩) = .ok v →
        (EmbeddingGenerator.generate_batch_embeddings embed_content texts).get ⟨i, hb⟩ = v) := by
  refine ⟨List.length_map _ _, ?_⟩
  intro i hi hb
  constructor
  · rintro ⟨e, he⟩
    unfold EmbeddingGenerator.generate_batch_embeddings
    simp only [List.get_eq_getElem, List.getElem_map]
    simp only [List.get_eq_getElem] at he
    rw [he]
  · intro v hv
    unfold EmbeddingGenerator.generate_batch_embeddings
    simp only [List.get_eq_getElem, List.getElem_map]
    simp only [List.get_eq_getElem] at hv
    rw [hv]

/-- Witness for C5: a 5-item batch whose third item always fails
returns 5 vectors with the zero vector in third position. -/
theorem c5_witness :
    ∃ h2 : 2 < (EmbeddingGenerator.generate_batch_embeddings
        (fun t => if t = "c".data then none else some [(1 : ℚ)])
        ["a".data, "b".data, "c".data, "d".data, "e".data]).length,
      (EmbeddingGenerator.generate_batch_embeddings
        (fun t => if t = "c".data then none else some [(1 : ℚ)])
        ["a".data, "b".data, "c".data, "d".data, "e".data]).length = 5 ∧
      (EmbeddingGenerator.generate_batch_embeddings
        (fun t => if t = "c".data then none else some [(1 : ℚ)])
        ["a".data, "b".data, "c".data, "d".data, "e".data]).get ⟨2, h2⟩ =
        EmbeddingGenerator.zeros 768 := by
  have h := c5_batch_failure_isolation
    (fun t => if t = "c".data then none else some [(1 : ℚ)])
    ["a".data, "b".data, "c".data, "d".data, "e".data]
  have hlen : (EmbeddingGenerator.generate_batch_embeddings
      (fun t => if t = "c".data then none else some [(1 : ℚ)])
      ["a".data, "b".data, "c".data, "d".data, "e".data]).length = 5 := h.1
  have h2 : 2 < (EmbeddingGenerator.generate_batch_embeddings
      (fun t => if t = "c".data then none else some [(1 : ℚ)])
      ["a".data, "b".data, "c".data, "d".data, "e".data]).length := by
    rw [hlen]; norm_num
  exact ⟨h2, hlen, (h.2 2 (by norm_num) h2).1
    ⟨"Failed to generate embedding".data, rfl⟩⟩

namespace VectorStore

/-! ### `VectorStore` (`src/src/rag/vector_store.py`) -/

/-- The id-defaulting of `VectorStore.add_documents`:
`ids = [f"doc_{i}" for i in range(len(documents))]` when the caller
passes no ids. -/
def default_ids (documents : List (List Char)) : List (List Char) :=
  (List.range documents.length).map fun i => "doc_".data ++ (Nat.repr i).data

/-- The identifiers `add_documents` hands to `collection.add`. -/
def add_documents_ids (documents : List (List Char))
    (ids : Option (List (List Char))) : List (List Char) :=
  match ids with
  | some l => l
  | none => default_ids documents

end VectorStore

/-! ## Claim about default document identifiers -/

/-- C10: when `add_documents` is called without ids, the assigned
identifiers are exactly `doc_0 … doc_{n-1}`, they depend only on batch
positions (equal-length batches receive identical id lists), and any
two non-empty batches both assign `doc_0` — so identifiers are not
unique across separate indexing calls. -/
theorem c10_positional_default_ids :
    (∀ (d1 d2 : List (List Char)), d1.length = d2.length →
      VectorStore.add_documents_ids d1 none = VectorStore.add_documents_ids d2 none) ∧
    (∀ (docs : List (List Char)) (i : Nat)
      (hb : i < (VectorStore.add_documents_ids docs none).length),
      (VectorStore.add_documents_ids docs none).get ⟨i, hb⟩ =
        "doc_".data ++ (Nat.repr i).data) ∧
    (∀ (d1 d2 : List (List Char)), d1 ≠ [] → d2 ≠ [] →
      "doc_0".data ∈ VectorStore.add_documents_ids d1 none ∧
      "doc_0".data ∈ VectorStore.add_documents_ids d2 none) := by
  have hmem : ∀ (d : List (List Char)), d ≠ [] →
      "doc_0".data ∈ VectorStore.add_documents_ids d none := by
    intro d hd
    unfold VectorStore.add_documents_ids VectorStore.default_ids
    rw [List.mem_map]
    refine ⟨0, List.mem_range.mpr ?_, rfl⟩
    exact List.length_pos.mpr hd
  refine ⟨?_, ?_, fun d1 d2 h1 h2 => ⟨hmem d1 h1, hmem d2 h2⟩⟩
  · intro d1 d2 h
    unfold VectorStore.add_documents_ids VectorStore.default_ids
    rw [h]
  · intro docs i hb
    unfold VectorStore.add_documents_ids VectorStore.default_ids
    simp only [List.get_eq_getElem, List.getElem_map, List.getElem_range]

/-- Witness for C10 at two concrete one-document batches. -/
theorem c10_witness :
    "doc_0".data ∈ VectorStore.add_documents_ids ["x".data] none ∧
    "doc_0".data ∈ VectorStore.add_documents_ids ["y".data] none :=
  c10_positional_default_ids.2.2 ["x".data] ["y".data] (by simp) (by simp)

namespace LaTeXConverter

/-! ### `LaTeXConverter` (`src/src/processors/latex_converter.py`)

Each `re.sub` of the source is compiled to a matcher consumed by the
`simpleSub`/`re_sub` engines above, in the source's order.  Literal
braces inside replacement templates are written `\x7b`/`\x7d`. -/

/-- The `(?:\{[^}]*\})*` tail of the protect pattern: consume
`{...}` groups while each has a closing brace. -/
def cmdGroupsLoop : Nat → List Char → List Char
  | 0, s => s
  | fuel + 1, s =>
    match s with
    | '{' :: r =>
      (match r.dropWhile (fun c => !(c == '}')) with
      | '}' :: r3 => cmdGroupsLoop fuel r3
      | _ => s)
    | _ => s

/-- `\\[a-zA-Z]+(?:\{[^}]*\})*` (whole match returned, for `re.findall`
in `_protect_existing_latex`). -/
def mLatexCommand (s : List Char) : Option (List Char × List Char) := do
  let r ← expectCh '\\' s
  let (_, r2) ← takeW1 Char.isAlpha r
  let rest := cmdGroupsLoop r2.length r2
  some (matchedPart s rest, rest)

/-- `f"__LATEX_CMD_{i}__"` -/
def placeholderFor (i : Nat) : List Char :=
  "__LATEX_CMD_".data ++ (Nat.repr i).data ++ "__".data

/-- `LaTeXConverter._protect_existing_latex`: find every LaTeX
command, replace all its occurrences by its placeholder, and return
the command list for later restoration (source keeps it on `self`). -/
def protect_existing_latex (text : List Char) : List Char × List (List Char) :=
  let latex_commands := re_findall mLatexCommand text
  (latex_commands.enum.foldl
    (fun t ic => str_replace t ic.2 (placeholderFor ic.1)) text,
   latex_commands)

/-- `(\d+)\s*/\s*(\d+)` → `\frac{\1}{\2}` -/
def mFracNumeric (s : List Char) : Option (List Char × List Char) := do
  let (g1, r1) ← takeW1 Char.isDigit s
  let r2 ← expectCh '/' (r1.dropWhile isSpaceCh)
  let (g2, rest) ← takeW1 Char.isDigit (r2.dropWhile isSpaceCh)
  some ("\\frac\x7b".data ++ g1 ++ "\x7d\x7b".data ++ g2 ++ "\x7d".data, rest)

/-- `\(([^)]+)\)\s*/\s*\(([^)]+)\)` → `\frac{\1}{\2}` -/
def mFracParen (s : List Char) : Option (List Char × List Char) := do
  let r1 ← expectCh '(' s
  let (g1, r2) ← takeW1 (fun c => !(c == ')')) r1
  let r3 ← expectCh ')' r2
  let r4 ← expectCh '/' (r3.dropWhile isSpaceCh)
  let r5 ← expectCh '(' (r4.dropWhile isSpaceCh)
  let (g2, r6) ← takeW1 (fun c => !(c == ')')) r5
  let rest ← expectCh ')' r6
  some ("\\frac\x7b".data ++ g1 ++ "\x7d\x7b".data ++ g2 ++ "\x7d".data, rest)

/-- `([a-zA-Z]+)\s*/\s*([a-zA-Z]+)` → `\frac{\1}{\2}` -/
def mFracVars (s : List Char) : Option (List Char × List Char) := do
  let (g1, r1) ← takeW1 Char.isAlpha s
  let r2 ← expectCh '/' (r1.dropWhile isSpaceCh)
  let (g2, rest) ← takeW1 Char.isAlpha (r2.dropWhile isSpaceCh)
  some ("\\frac\x7b".data ++ g1 ++ "\x7d\x7b".data ++ g2 ++ "\x7d".data, rest)

/-- `LaTeXConverter._convert_fractions`. -/
def convert_fractions (text : List Char) : List Char :=
  simpleSub mFracVars (simpleSub mFracParen (simpleSub mFracNumeric text))

/-- `([a-zA-Z0-9])\^([a-zA-Z0-9]+)` → `\1^{\2}` -/
def mExpAlnum (s : List Char) : Option (List Char × List Char) :=
  match s with
  | c :: '^' :: r =>
    if c.isAlphanum then
      match takeW1 Char.isAlphanum r with
      | some (g2, rest) => some ([c] ++ "^\x7b".data ++ g2 ++ "\x7d".data, rest)
      | none => none
    else none
  | _ => none

/-- `([a-zA-Z0-9])\^([+-]?\d+)` → `\1^{\2}` -/
def mExpSigned (s : List Char) : Option (List Char × List Char) :=
  match s with
  | c :: '^' :: r =>
    if c.isAlphanum then
      match r with
      | sign :: r2 =>
        if sign = '+' ∨ sign = '-' then
          match takeW1 Char.isDigit r2 with
          | some (g2, rest) =>
            some ([c] ++ "^\x7b".data ++ [sign] ++ g2 ++ "\x7d".data, rest)
          | none => none
        else
          match takeW1 Char.isDigit r with
          | some (g2, rest) => some ([c] ++ "^\x7b".data ++ g2 ++ "\x7d".data, rest)
          | none => none
      | [] => none
    else none
  | _ => none

/-- `([a-zA-Z])_([a-zA-Z0-9]+)` → `\1_{\2}` -/
def mSubAlnum (s : List Char) : Option (List Char × List Char) :=
  match s with
  | c :: '_' :: r =>
    if c.isAlpha then
      match takeW1 Char.isAlphanum r with
      | some (g2, rest) => some ([c] ++ "_\x7b".data ++ g2 ++ "\x7d".data, rest)
      | none => none
    else none
  | _ => none

/-- `([a-zA-Z])_(\d+)` → `\1_{\2}` -/
def mSubDigits (s : List Char) : Option (List Char × List Char) :=
  match s with
  | c :: '_' :: r =>
    if c.isAlpha then
      match takeW1 Char.isDigit r with
      | some (g2, rest) => some ([c] ++ "_\x7b".data ++ g2 ++ "\x7d".data, rest)
      | none => none
    else none
  | _ => none

/-- Python `\w` (word character, for `\b`). -/
def isWordCh (c : Char) : Bool := c.isAlphanum || c == '_'

/-- `\b([xyz])\s*\^\s*<digit>\b` → `\1^<digit>` (the `digit` parameter
is `'2'` or `'3'`); the previous character decides the left boundary. -/
def mXyzPow (digit : Char) (prev : Option Char) (s : List Char) :
    Option (List Char × List Char × List Char) := do
  let boundaryOk := match prev with
    | none => true
    | some p => !(isWordCh p)
  if boundaryOk then
    match s with
    | c :: r =>
      if c = 'x' ∨ c = 'y' ∨ c = 'z' then do
        let r2 ← expectCh '^' (r.dropWhile isSpaceCh)
        let rest ← expectCh digit (r2.dropWhile isSpaceCh)
        match rest with
        | [] => some (matchedPart s rest, [c, '^', digit], rest)
        | d :: _ =>
          if isWordCh d then none
          else some (matchedPart s rest, [c, '^', digit], rest)
      else none
    | [] => none
  else none

/-- `LaTeXConverter._convert_exponents_subscripts`. -/
def convert_exponents_subscripts (text : List Char) : List Char :=
  let t := simpleSub mExpAlnum text
  let t := simpleSub mExpSigned t
  let t := simpleSub mSubAlnum t
  let t := simpleSub mSubDigits t
  let t := re_sub (mXyzPow '2') t
  re_sub (mXyzPow '3') t

/-- `√\s*([a-zA-Z0-9]+)` → `\sqrt{\1}` -/
def mRootSym (s : List Char) : Option (List Char × List Char) := do
  let r ← expectCh '√' s
  let (g, rest) ← takeW1 Char.isAlphanum (r.dropWhile isSpaceCh)
  some ("\\sqrt\x7b".data ++ g ++ "\x7d".data, rest)

/-- `sqrt\s*\(([^)]+)\)` → `\sqrt{\1}` -/
def mRootWord (s : List Char) : Option (List Char × List Char) := do
  let r ← expectLit "sqrt".data s
  let r2 ← expectCh '(' (r.dropWhile isSpaceCh)
  let (g, r3) ← takeW1 (fun c => !(c == ')')) r2
  let rest ← expectCh ')' r3
  some ("\\sqrt\x7b".data ++ g ++ "\x7d".data, rest)

/-- `(\d+)th\s+root\s+of\s+([a-zA-Z0-9]+)` → `\sqrt[\1]{\2}` -/
def mNthRoot (s : List Char) : Option (List Char × List Char) := do
  let (g1, r1) ← takeW1 Char.isDigit s
  let r2 ← expectLit "th".data r1
  let (_, r3) ← takeW1 isSpaceCh r2
  let r4 ← expectLit "root".data r3
  let (_, r5) ← takeW1 isSpaceCh r4
  let r6 ← expectLit "of".data r5
  let (_, r7) ← takeW1 isSpaceCh r6
  let (g2, rest) ← takeW1 Char.isAlphanum r7
  some ("\\sqrt[".data ++ g1 ++ "]\x7b".data ++ g2 ++ "\x7d".data, rest)

/-- `LaTeXConverter._convert_roots`. -/
def convert_roots (text : List Char) : List Char :=
  simpleSub mNthRoot (simpleSub mRootWord (simpleSub mRootSym text))

/-- `∫` → `\int` -/
def mIntSym (s : List Char) : Option (List Char × List Char) := do
  let rest ← expectCh '∫' s
  some ("\\int".data, rest)

/-- `integral\s+from\s+([a-zA-Z0-9]+)\s+to\s+([a-zA-Z0-9]+)` →
`\int_{\1}^{\2}` -/
def mIntegralFrom (s : List Char) : Option (List Char × List Char) := do
  let r1 ← expectLit "integral".data s
  let (_, r2) ← takeW1 isSpaceCh r1
  let r3 ← expectLit "from".data r2
  let (_, r4) ← takeW1 isSpaceCh r3
  let (g1, r5) ← takeW1 Char.isAlphanum r4
  let (_, r6) ← takeW1 isSpaceCh r5
  let r7 ← expectLit "to".data r6
  let (_, r8) ← takeW1 isSpaceCh r7
  let (g2, rest) ← takeW1 Char.isAlphanum r8
  some ("\\int_\x7b".data ++ g1 ++ "\x7d^\x7b".data ++ g2 ++ "\x7d".data, rest)

/-- `Σ` → `\sum` -/
def mSumSym (s : List Char) : Option (List Char × List Char) := do
  let rest ← expectCh 'Σ' s
  some ("\\sum".data, rest)

/-- `sum\s+from\s+([a-zA-Z0-9]+)\s*=\s*([a-zA-Z0-9]+)\s+to\s+([a-zA-Z0-9]+)`
→ `\sum_{\1=\2}^{\3}` -/
def mSumFrom (s : List Char) : Option (List Char × List Char) := do
  let r1 ← expectLit "sum".data s
  let (_, r2) ← takeW1 isSpaceCh r1
  let r3 ← expectLit "from".data r2
  let (_, r4) ← takeW1 isSpaceCh r3
  let (g1, r5) ← takeW1 Char.isAlphanum r4
  let r6 ← expectCh '=' (r5.dropWhile isSpaceCh)
  let (g2, r7) ← takeW1 Char.isAlphanum (r6.dropWhile isSpaceCh)
  let (_, r8) ← takeW1 isSpaceCh r7
  let r9 ← expectLit "to".data r8
  let (_, r10) ← takeW1 isSpaceCh r9
  let (g3, rest) ← takeW1 Char.isAlphanum r10
  some ("\\sum_\x7b".data ++ g1 ++ "=".data ++ g2 ++ "\x7d^\x7b".data ++ g3 ++
    "\x7d".data, rest)

/-- `∏` → `\prod` -/
def mProdSym (s : List Char) : Option (List Char × List Char) := do
  let rest ← expectCh '∏' s
  some ("\\prod".data, rest)

/-- `LaTeXConverter._convert_integrals_sums`. -/
def convert_integrals_sums (text : List Char) : List Char :=
  let t := simpleSub mIntSym text
  let t := simpleSub mIntegralFrom t
  let t := simpleSub mSumSym t
  let t := simpleSub mSumFrom t
  simpleSub mProdSym t

/-- `\[\s*([^\]]+)\s*\]` with the `matrix_replacer` function: rewrite
to a `bmatrix` block only when the bracket content contains `;` or a
newline, otherwise keep the match verbatim. -/
def mMatrix (s : List Char) : Option (List Char × List Char) :=
  match s with
  | '[' :: r1 =>
    let content := r1.takeWhile (fun c => !(c == ']'))
    if content = [] then none
    else
      match r1.drop content.length with
      | ']' :: rest =>
        -- group(1): the leading `\s*` takes as much whitespace as it
        -- can while leaving the `[^\]]+` group non-empty
        let g1 := if content.dropWhile isSpaceCh = [] then [content.getLast?.getD ' ']
          else content.dropWhile isSpaceCh
        let rep := if g1.contains ';' || g1.contains '\n' then
            "\\begin\x7bbmatrix\x7d ".data ++
              joinWith " \\\\ ".data
                (if g1.contains ';' then splitOnCh ';' g1 else splitOnCh '\n' g1) ++
              " \\end\x7bbmatrix\x7d".data
          else matchedPart ('[' :: r1) rest
        some (rep, rest)
      | _ => none
  | _ => none

/-- `LaTeXConverter._convert_matrices`. -/
def convert_matrices (text : List Char) : List Char :=
  simpleSub mMatrix text

/-- `P\s*\(([^)]+)\)` → `P(\1)` -/
def mPNorm (s : List Char) : Option (List Char × List Char) := do
  let r1 ← expectCh 'P' s
  let r2 ← expectCh '(' (r1.dropWhile isSpaceCh)
  let (g, r3) ← takeW1 (fun c => !(c == ')')) r2
  let rest ← expectCh ')' r3
  some ("P(".data ++ g ++ ")".data, rest)

/-- `P\s*\(([^|]+)\s*\|\s*([^)]+)\)` → `P(\1 \mid \2)` -/
def mPCond (s : List Char) : Option (List Char × List Char) := do
  let r1 ← expectCh 'P' s
  let r2 ← expectCh '(' (r1.dropWhile isSpaceCh)
  let (g1, r3) ← takeW1 (fun c => !(c == '|')) r2
  let r4 ← expectCh '|' r3
  let (g2, r5) ← takeW1 (fun c => !(c == ')')) (r4.dropWhile isSpaceCh)
  let rest ← expectCh ')' r5
  some ("P(".data ++ g1 ++ " \\mid ".data ++ g2 ++ ")".data, rest)

/-- `E\s*\[([^\]]+)\]` → `\mathbb{E}[\1]` -/
def mExpect (s : List Char) : Option (List Char × List Char) := do
  let r1 ← expectCh 'E' s
  let r2 ← expectCh '[' (r1.dropWhile isSpaceCh)
  let (g, r3) ← takeW1 (fun c => !(c == ']')) r2
  let rest ← expectCh ']' r3
  some ("\\mathbb\x7bE\x7d[".data ++ g ++ "]".data, rest)

/-- `Var\s*\(([^)]+)\)` → `\text{Var}(\1)` -/
def mVar (s : List Char) : Option (List Char × List Char) := do
  let r1 ← expectLit "Var".data s
  let r2 ← expectCh '(' (r1.dropWhile isSpaceCh)
  let (g, r3) ← takeW1 (fun c => !(c == ')')) r2
  let rest ← expectCh ')' r3
  some ("\\text\x7bVar\x7d(".data ++ g ++ ")".data, rest)

/-- `C\s*\(\s*([a-zA-Z0-9]+)\s*,\s*([a-zA-Z0-9]+)\s*\)` →
`\binom{\1}{\2}` -/
def mComb (s : List Char) : Option (List Char × List Char) := do
  let r1 ← expectCh 'C' s
  let r2 ← expectCh '(' (r1.dropWhile isSpaceCh)
  let (g1, r3) ← takeW1 Char.isAlphanum (r2.dropWhile isSpaceCh)
  let r4 ← expectCh ',' (r3.dropWhile isSpaceCh)
  let (g2, r5) ← takeW1 Char.isAlphanum (r4.dropWhile isSpaceCh)
  let rest ← expectCh ')' (r5.dropWhile isSpaceCh)
  some ("\\binom\x7b".data ++ g1 ++ "\x7d\x7b".data ++ g2 ++ "\x7d".data, rest)

/-- `nCr` → `\binom{n}{r}` -/
def mNCr (s : List Char) : Option (List Char × List Char) := do
  let rest ← expectLit "nCr".data s
  some ("\\binom\x7bn\x7d\x7br\x7d".data, rest)

/-- `nPr` → `P_n^r` -/
def mNPr (s : List Char) : Option (List Char × List Char) := do
  let rest ← expectLit "nPr".data s
  some ("P_n^r".data, rest)

/-- `LaTeXConverter._convert_probability`. -/
def convert_probability (text : List Char) : List Char :=
  let t := simpleSub mPNorm text
  let t := simpleSub mPCond t
  let t := simpleSub mExpect t
  let t := simpleSub mVar t
  let t := simpleSub mComb t
  let t := simpleSub mNCr t
  simpleSub mNPr t

/-- `LaTeXConverter._convert_math_expressions`. -/
def convert_math_expressions (text : List Char) : List Char :=
  convert_probability (convert_matrices (convert_integrals_sums
    (convert_roots (convert_exponents_subscripts (convert_fractions text)))))

/-- `MATH_SYMBOLS` from `src/src/core/constants.py`, in dict order. -/
def MATH_SYMBOLS : List (Char × List Char) :=
  [('α', "\\alpha".data), ('β', "\\beta".data), ('γ', "\\gamma".data),
   ('δ', "\\delta".data), ('θ', "\\theta".data), ('λ', "\\lambda".data),
   ('μ', "\\mu".data), ('σ', "\\sigma".data), ('φ', "\\phi".data),
   ('ω', "\\omega".data), ('Σ', "\\sum".data), ('∫', "\\int".data),
   ('∞', "\\infty".data), ('√', "\\sqrt".data), ('≤', "\\leq".data),
   ('≥', "\\geq".data), ('≠', "\\neq".data), ('≈', "\\approx".data),
   ('∈', "\\in".data), ('∉', "\\notin".data), ('⊂', "\\subset".data),
   ('⊃', "\\supset".data), ('∪', "\\cup".data), ('∩', "\\cap".data),
   ('∀', "\\forall".data), ('∃', "\\exists".data)]

/-- `LaTeXConverter._convert_special_characters` (the escaping table
for `%`, `&`, … is dead code in the source: it is built but never
applied). -/
def convert_special_characters (text : List Char) : List Char :=
  MATH_SYMBOLS.foldl (fun t p => str_replace t [p.1] p.2) text

/-- `LATEX_DELIMITERS` from `src/src/core/constants.py`. -/
def LATEX_DELIMITERS (mode : List Char) : Option (List Char × List Char) :=
  if mode = "inline".data then some ("$".data, "$".data)
  else if mode = "display".data then some ("$$".data, "$$".data)
  else if mode = "equation".data then
    some ("\\begin\x7bequation\x7d".data, "\\end\x7bequation\x7d".data)
  else if mode = "align".data then
    some ("\\begin\x7balign\x7d".data, "\\end\x7balign\x7d".data)
  else none

/-- `LaTeXConverter._apply_math_mode`: wrap in the mode's delimiters
unless the text already starts with the opening delimiter. -/
def apply_math_mode (text mode : List Char) : List Char :=
  match LATEX_DELIMITERS mode with
  | some (st, en) => if st.isPrefixOf text then text else st ++ text ++ en
  | none => text

/-- `LaTeXConverter._format_for_document`: restore each placeholder to
its protected command, then turn double blank lines into `\medskip`. -/
def format_for_document (text : List Char) (protectedCmds : List (List Char)) : List Char :=
  let t := protectedCmds.enum.foldl
    (fun t ic => str_replace t (placeholderFor ic.1) ic.2) text
  str_replace t "\n\n".data "\n\\medskip\n".data

/-- `LaTeXConverter.convert`. -/
def convert (text : List Char) (math_mode : List Char) : List Char :=
  let p := protect_existing_latex text
  let t := convert_math_expressions p.1
  let t := convert_special_characters t
  let t := apply_math_mode t math_mode
  format_for_document t p.2

end LaTeXConverter

/-! ## Claim about double conversion -/

/-- C2 (code-bug exhibit): running `convert` on its own output
corrupts the commands protected in the first pass.  On input `"1/2"`
(inline mode) the first pass yields the correct `$\frac{1}{2}$`, but
the second pass protects `\frac{1}{2}` behind `__LATEX_CMD_0__`, the
subscript rewrite then turns that placeholder into
`__LATEX_{CMD}_0__`, restoration no longer finds it, and the `\frac`
command is lost.  In `equation` mode the second pass additionally
wraps the already-delimited text in a second delimiter pair, because
the protected `\begin{equation}` placeholder defeats the
already-wrapped check. -/
theorem c2_double_convert_corrupts_protected :
    LaTeXConverter.convert "1/2".data "inline".data = "$\\frac\x7b1\x7d\x7b2\x7d$".data ∧
    LaTeXConverter.convert (LaTeXConverter.convert "1/2".data "inline".data) "inline".data =
      "$__LATEX_\x7bCMD\x7d_0__$".data ∧
    infixOf "\\frac".data
      (LaTeXConverter.convert (LaTeXConverter.convert "1/2".data "inline".data)
        "inline".data) = false ∧
    LaTeXConverter.convert (LaTeXConverter.convert "x^2".data "equation".data)
        "equation".data =
      ("\\begin\x7bequation\x7d__LATEX_\x7bCMD\x7d_0__x^\x7b2\x7d" ++
        "__LATEX_\x7bCMD\x7d_1__\\end\x7bequation\x7d").data := by
  refine ⟨?_, ?_, ?_, ?_⟩ <;> decide
